import Mathlib

/-!
Shallow embedding of `mdsynthesis/core/bundle.py`: the in-memory object
catalog (`_CollectionBase`, `_BundleBackend`, `Bundle`).

Python strings are `String`; the numpy structured-array member table is a
`List MemberRecord` (a `None` table is `Option.none`); the object cache (a
Python dict from uuid to container-or-falsy) is an association list
`List (String × Option Container)`; Python exceptions are the explicit
error type `PyErr` threaded through `Except`.  The external collaborators
(`filesystem.Foxhound`, `os.path.abspath`, the `persistence` length
constants) are parameters of an `Env` record.  State-mutating catalog
operations return the post-call state *and* an `Except` result, because a
Python exception does not roll back mutations already performed.
-/

set_option maxRecDepth 4000

deriving instance DecidableEq for Except

/-- A live container handle (`mds.Container`): the attributes the catalog
reads are `uuid`, `containertype`, `basedir` and the display `name`. -/
structure Container where
  uuid : String
  containertype : String
  basedir : String
  name : String
deriving DecidableEq, Repr

/-- One row of the member table, matching the record schema built by
`_BundleBackend._member2record` (fields `uuid`, `containertype`, `abspath`). -/
structure MemberRecord where
  uuid : String
  containertype : String
  abspath : String
deriving DecidableEq, Repr

/-- The Python exceptions the embedded code can raise.  `ioError ind uuid`
is the `IOError("Could not find member {ind} (uuid: {uuid}); re-add or
remove it.")` raised by `_CollectionBase._list` — the `MemberNotFound`-class
error of the spec, carrying the ordinal position and the id. -/
inductive PyErr where
  | typeError (msg : String)
  | indexError
  | keyError (key : String)
  | attributeError
  | valueError
  | ioError (ind : Nat) (uuid : String)
deriving DecidableEq, Repr

/-- External collaborators and configuration of the catalog code:
`resolve` is the per-uuid outcome of `filesystem.Foxhound(...).fetch`
(`none` = the member could not be found), `abspath` is `os.path.abspath`,
and the three lengths are `persistence.uuidlength` / `namelength` /
`pathlength` used in the numpy dtype of `_member2record`. -/
structure Env where
  resolve : String → Option Container
  abspath : String → String
  uuidlength : Nat
  namelength : Nat
  pathlength : Nat

/-- `_BundleBackend._member2record`: builds the record from a member's
information.  numpy `aN` (fixed-width bytes) fields silently truncate a
value longer than the field width, hence `String.take`. -/
def member2record (E : Env) (uuid containertype basedir : String) : MemberRecord :=
  { uuid := uuid.take E.uuidlength
    containertype := containertype.take E.namelength
    abspath := (E.abspath basedir).take E.pathlength }

/-- The in-place field assignment `self.table[index[0]]['abspath'] = ...` of
`add_member`: overwrite `abspath` of the *first* row whose stored uuid equals
the given uuid (numpy assignment into an `aN` field also truncates). -/
def updateFirstLoc (uuid loc : String) : List MemberRecord → List MemberRecord
  | [] => []
  | r :: rs =>
      if r.uuid = uuid then { r with abspath := loc } :: rs
      else r :: updateFirstLoc uuid loc rs

/-- `_BundleBackend.add_member`: on a `None` table, create the single-row
table; otherwise, if the uuid is already present (`np.where(...)` non-empty)
overwrite the first matching row's `abspath` only, else append a new row. -/
def add_member (E : Env) (table : Option (List MemberRecord))
    (uuid containertype basedir : String) : Option (List MemberRecord) :=
  match table with
  | none => some [member2record E uuid containertype basedir]
  | some rows =>
      if rows.any (fun r => r.uuid = uuid) then
        some (updateFirstLoc uuid ((E.abspath basedir).take E.pathlength) rows)
      else
        some (rows ++ [member2record E uuid containertype basedir])

/-- Row indices whose stored uuid equals `u`: `np.where(table['uuid'] == u)[0]`. -/
def matchIdx (rows : List MemberRecord) (u : String) : List Nat :=
  (rows.enum.filter (fun p => p.2.uuid = u)).map (fun p => p.1)

/-- `_BundleBackend.del_member` with `all=False`.  The given uuids are
deduplicated (`set(...)`); for each, the matching row indices are computed
and the guard `if index:` is evaluated: on a one-element numpy index array
this is the truthiness of the single index, so a match at row index `0` is
*falsy* and is skipped; a multi-element index array raises
`ValueError` (ambiguous truth value).  Finally `np.delete` drops the
collected indices. -/
def del_member (rows : List MemberRecord) (uuidArgs : List String) :
    Except PyErr (List MemberRecord) := do
  let uuids := uuidArgs.dedup
  let ms ← uuids.foldlM (fun acc u =>
      match matchIdx rows u with
      | [] => pure acc
      | [i] => if i = 0 then pure acc else pure (acc ++ [i])
      | _ :: _ :: _ => Except.error PyErr.valueError) ([] : List Nat)
  pure ((rows.enum.filter (fun p => !ms.contains p.1)).map (fun p => p.2))

/-- `_BundleBackend.del_member` with `all=True`: the table becomes `None`. -/
def del_member_all : Option (List MemberRecord) := none

/-- `_BundleBackend.get_members_uuid`: `self.table['uuid'].flatten()`;
subscripting a `None` table raises `TypeError`. -/
def get_members_uuid (table : Option (List MemberRecord)) :
    Except PyErr (List String) :=
  match table with
  | none => Except.error (PyErr.typeError "NoneType object has no attribute __getitem__")
  | some rows => Except.ok (rows.map (fun r => r.uuid))

/-- Python dict lookup on an association list (first binding of the key). -/
def dictGet {α : Type _} (d : List (String × α)) (k : String) : Option α :=
  (d.find? (fun p => p.1 = k)).map (fun p => p.2)

/-- Python dict assignment `d[k] = v`: overwrite the existing binding of
`k`, else append a fresh binding. -/
def dictSet {α : Type _} (d : List (String × α)) (k : String) (v : α) :
    List (String × α) :=
  if d.any (fun p => p.1 = k) then
    d.map (fun p => if p.1 = k then (k, v) else p)
  else d ++ [(k, v)]

/-- Python `d.pop(k, None)`: drop the binding of `k` if present. -/
def dictPop {α : Type _} (d : List (String × α)) (k : String) :
    List (String × α) :=
  d.filter (fun p => p.1 ≠ k)

/-- The catalog's mutable state: the backend table (`_BundleBackend.table`,
`None` when empty) and the object cache (`self._cache`, which may hold falsy
entries for members a previous resolution failed to find). -/
structure CatalogState where
  table : Option (List MemberRecord)
  cache : List (String × Option Container)
deriving DecidableEq, Repr

/-- The cache test of `_list`: `uuid in self._cache and self._cache[uuid]`
— the cached value is used only if the key is present *and* truthy. -/
def truthyCached (cache : List (String × Option Container)) (u : String) :
    Option Container :=
  match dictGet cache u with
  | some (some c) => some c
  | _ => none

/-- The final loop of `_CollectionBase._list`:
`for uuid in findlist: result = foundconts[uuid]; if not result: raise
IOError(...); memberlist[uuids.index(uuid)] = result`.  It raises at the
first pending uuid the resolver mapped to absent, naming the uuid's ordinal
position in the table, and otherwise writes the found container into the
reserved slot. -/
def fillLoop (E : Env) (uuids : List String) :
    List String → List (Option Container) → Except PyErr (List (Option Container))
  | [], memberlist => Except.ok memberlist
  | u :: rest, memberlist =>
      match E.resolve u with
      | none => Except.error (PyErr.ioError (uuids.indexOf u) u)
      | some c => fillLoop E uuids rest (memberlist.set (uuids.indexOf u) (some c))

/-- `_CollectionBase._list`: read the table (`TypeError` on a `None` table),
take truthy cache hits, mark the rest pending (`findlist`), resolve the
pending uuids through the Foxhound, merge the outcomes (absent ones
included) into the cache, re-add every found container (which refreshes its
stored `abspath` — the self-heal), then run the fill loop, which raises on
the first absent member.  The post-call state is returned in both the
success and the error case, because the cache merge and the re-add happen
before the fill loop can raise. -/
def listRun (E : Env) (st : CatalogState) :
    CatalogState × Except PyErr (List (Option Container)) :=
  match st.table with
  | none => (st, Except.error (PyErr.typeError "NoneType object has no attribute __getitem__"))
  | some rows =>
      let uuids := rows.map (fun r => r.uuid)
      let memberlist := uuids.map (fun u => truthyCached st.cache u)
      let findlist := uuids.filter (fun u => (truthyCached st.cache u).isNone)
      let foundconts := findlist.map (fun u => (u, E.resolve u))
      let cache' := foundconts.foldl (fun c p => dictSet c p.1 p.2) st.cache
      let table' := (foundconts.filterMap (fun p => p.2)).foldl
          (fun t c => add_member E t c.uuid c.containertype c.basedir) (some rows)
      let st' : CatalogState := { table := table', cache := cache' }
      match fillLoop E uuids findlist memberlist with
      | Except.error e => (st', Except.error e)
      | Except.ok memberlist => (st', Except.ok memberlist)

/-- `_CollectionBase.__len__`: `len(self._list())`. -/
def lenRun (E : Env) (st : CatalogState) : CatalogState × Except PyErr Nat :=
  match listRun E st with
  | (st', Except.error e) => (st', Except.error e)
  | (st', Except.ok memberlist) => (st', Except.ok memberlist.length)

/-- `_CollectionBase.__getitem__` on an integer index:
`self._list()[index]` (an out-of-range index raises `IndexError`). -/
def getItem (E : Env) (st : CatalogState) (i : Nat) :
    CatalogState × Except PyErr (Option Container) :=
  match listRun E st with
  | (st', Except.error e) => (st', Except.error e)
  | (st', Except.ok memberlist) =>
      match memberlist.get? i with
      | some v => (st', Except.ok v)
      | none => (st', Except.error PyErr.indexError)

/-- The `names` property: `_list`, then for each entry the display name if
the entry is truthy and `None` otherwise.  Any exception of `_list`
propagates. -/
def namesRun (E : Env) (st : CatalogState) :
    CatalogState × Except PyErr (List (Option String)) :=
  match listRun E st with
  | (st', Except.error e) => (st', Except.error e)
  | (st', Except.ok memberlist) =>
      (st', Except.ok (memberlist.map (fun m => m.map (fun c => c.name))))

/-- Number of rows of the current table (`None` counts as zero rows);
used only to supply enough fuel for the iteration below. -/
def tableLen (st : CatalogState) : Nat := (st.table.getD []).length

/-- One Python `for member in self` iteration over a `_CollectionBase`:
the interpreter calls `__getitem__(0)`, `__getitem__(1)`, ... on the
*current* (possibly self-healed) state until `IndexError` stops it; any
other exception propagates.  `fuel` bounds the loop so the definition is
total; `tableLen + 1` steps always suffice because `_list` never changes
the number of table rows. -/
def iterAux (E : Env) :
    Nat → CatalogState → Nat → List (Option Container) →
      CatalogState × Except PyErr (List (Option Container))
  | 0, st, _, _ => (st, Except.error (PyErr.typeError "iteration fuel exhausted"))
  | fuel + 1, st, i, acc =>
      match getItem E st i with
      | (st', Except.error PyErr.indexError) => (st', Except.ok acc)
      | (st', Except.error e) => (st', Except.error e)
      | (st', Except.ok v) => iterAux E fuel st' (i + 1) (acc ++ [v])

/-- `for member in self` from the start of the collection. -/
def iterSelf (E : Env) (st : CatalogState) :
    CatalogState × Except PyErr (List (Option Container)) :=
  iterAux E (tableLen st + 1) st 0 []

/-- The sequential branch of `_CollectionBase.map` (`processes == 1`):
`[function(member, **kwargs) for member in self]`. -/
def mapSeq {β : Type _} (E : Env) (f : Option Container → β) (st : CatalogState) :
    CatalogState × Except PyErr (List β) :=
  match iterSelf E st with
  | (st', Except.error e) => (st', Except.error e)
  | (st', Except.ok members) => (st', Except.ok (members.map f))

/-- The result-dict construction of the parallel branch of `map`:
`results[member.uuid] = pool.apply_async(function, args=(member,), kwds=kwargs).get()`
for each member in iteration order (reading `.uuid` of a `None` member
would raise `AttributeError`). -/
def buildResults {β : Type _} (f : Option Container → β) :
    List (Option Container) → List (String × β) → Except PyErr (List (String × β))
  | [], d => Except.ok d
  | none :: _, _ => Except.error PyErr.attributeError
  | some c :: rest, d => buildResults f rest (dictSet d c.uuid (f (some c)))

/-- The re-projection of the parallel branch of `map`:
`[results[uuid] for uuid in self.uuids]` (a uuid with no dict entry would
raise `KeyError`). -/
def reproject {β : Type _} (d : List (String × β)) :
    List String → Except PyErr (List β)
  | [] => Except.ok []
  | u :: rest =>
      match dictGet d u with
      | none => Except.error (PyErr.keyError u)
      | some v =>
          match reproject d rest with
          | Except.error e => Except.error e
          | Except.ok out => Except.ok (v :: out)

/-- The parallel branch of `_CollectionBase.map` (`processes > 1`): iterate
the members, fill the uuid-keyed result dict, then re-project the dict into
`self.uuids` order (read from the post-iteration table). -/
def mapPar {β : Type _} (E : Env) (f : Option Container → β) (st : CatalogState) :
    CatalogState × Except PyErr (List β) :=
  match iterSelf E st with
  | (st1, Except.error e) => (st1, Except.error e)
  | (st1, Except.ok members) =>
      match buildResults f members [] with
      | Except.error e => (st1, Except.error e)
      | Except.ok results =>
          match get_members_uuid st1.table with
          | Except.error e => (st1, Except.error e)
          | Except.ok us =>
              match reproject results us with
              | Except.error e => (st1, Except.error e)
              | Except.ok out => (st1, Except.ok out)

/-- `_CollectionBase.map`: the parallel branch when `processes > 1`, the
sequential comprehension otherwise. -/
def mapRun {β : Type _} (E : Env) (f : Option Container → β) (processes : Nat)
    (st : CatalogState) : CatalogState × Except PyErr (List β) :=
  if 1 < processes then mapPar E f st else mapSeq E f st

/-- An argument passed to `_CollectionBase.remove`: an integer index, a
container instance, or anything else (`other`), which `remove` rejects with
`TypeError('Only an integer or container acceptable')`. -/
inductive RemoveArg where
  | index (i : Int)
  | cont (c : Container)
  | other
deriving DecidableEq, Repr

/-- Python list indexing `uuids[member]` with an `int`: non-negative
indices from the front, negative indices from the back, `IndexError`
otherwise. -/
def pyIndex (l : List String) (i : Int) : Except PyErr String :=
  if h : 0 ≤ i ∧ i < (l.length : Int) then
    Except.ok (l.get ⟨i.toNat, by omega⟩)
  else if h2 : -(l.length : Int) ≤ i ∧ i < 0 then
    Except.ok (l.get ⟨(i + l.length).toNat, by omega⟩)
  else Except.error PyErr.indexError

/-- The argument-validation loop of `remove`: build the uuid list to
delete, raising at the first argument that is neither an `int` nor a
container. -/
def buildRemove (uuids : List String) : List RemoveArg → Except PyErr (List String)
  | [] => Except.ok []
  | RemoveArg.index i :: rest =>
      match pyIndex uuids i with
      | Except.error e => Except.error e
      | Except.ok u =>
          match buildRemove uuids rest with
          | Except.error e => Except.error e
          | Except.ok r => Except.ok (u :: r)
  | RemoveArg.cont c :: rest =>
      match buildRemove uuids rest with
      | Except.error e => Except.error e
      | Except.ok r => Except.ok (c.uuid :: r)
  | RemoveArg.other :: _ =>
      Except.error (PyErr.typeError "Only an integer or container acceptable")

/-- `_CollectionBase.remove`: read the member uuids (`TypeError` on a
`None` table), take all of them when `all=True` and otherwise validate and
translate the arguments; only then call `del_member` on the backend and pop
the removed uuids from the cache.  Any exception raised while building the
removal list leaves table and cache untouched. -/
def removeRun (st : CatalogState) (members : List RemoveArg) (all : Bool) :
    CatalogState × Except PyErr Unit :=
  match st.table with
  | none => (st, Except.error (PyErr.typeError "NoneType object has no attribute __getitem__"))
  | some rows =>
      let uuids := rows.map (fun r => r.uuid)
      match (if all then Except.ok uuids else buildRemove uuids members) with
      | Except.error e => (st, Except.error e)
      | Except.ok removeList =>
          match del_member rows removeList with
          | Except.error e => (st, Except.error e)
          | Except.ok rows' =>
              ({ table := some rows', cache := removeList.foldl dictPop st.cache },
               Except.ok ())

/-- A scheduling event of the parallel branch of `map`: submission of the
task for the i-th member (`pool.apply_async`) or awaiting its result
(`.get()`). -/
inductive MapEvent where
  | submit (i : Nat)
  | await (i : Nat)
deriving DecidableEq, Repr

/-- The event trace of the parallel branch of `map` for `n` members: the
loop body `results[member.uuid] = pool.apply_async(...).get()` submits the
i-th task and immediately awaits its result inside the same iteration. -/
def mapParTrace (n : Nat) : List MapEvent :=
  (List.range n).foldl (fun tr i => tr ++ [MapEvent.submit i, MapEvent.await i]) []

/-- Whether an event is a task submission. -/
def isSubmit : MapEvent → Bool
  | MapEvent.submit _ => true
  | MapEvent.await _ => false

/-- Full fan-out before any gather: every submission precedes every await,
i.e. after the first non-submission event no submission occurs. -/
def submitsBeforeAwaits (tr : List MapEvent) : Bool :=
  (tr.dropWhile isSubmit).all (fun e => !isSubmit e)

/-- Characterization helper: the container `_list` produces for one table
uuid — the truthy cache hit when there is one, otherwise the resolver's
outcome for that uuid. -/
def resolveOne (E : Env) (cache : List (String × Option Container)) (u : String) :
    Option Container :=
  match truthyCached cache u with
  | some c => some c
  | none => E.resolve u

/-- Claim C4 (code bug): on a catalog with one member whose uuid the
resolver maps to absent, `names` does not return `[None]` as its own
docstring promises — the `IOError` of `_list` (naming ordinal position 0
and uuid `"a"`) propagates out of `names`, after the absent outcome has
already been merged into the cache. -/
theorem namesRun_raises_on_missing_member :
    namesRun ⟨fun _ => none, fun s => s, 36, 10, 100⟩
        ⟨some [⟨"a", "Sim", "/a"⟩], []⟩
      = (⟨some [⟨"a", "Sim", "/a"⟩], [("a", (none : Option Container))]⟩,
         Except.error (PyErr.ioError 0 "a")) ∧
    (namesRun ⟨fun _ => none, fun s => s, 36, 10, 100⟩
        ⟨some [⟨"a", "Sim", "/a"⟩], []⟩).2
      ≠ Except.ok [(none : Option String)] := by decide

/-- Claim C6 (code bug): `del_member` fails to delete a matched row at
table position 0, because `if index:` on the one-element numpy index array
`array([0])` is falsy; a match at a later position is deleted, and an
unmatched uuid is silently ignored.  So deleting `"a"` from the singleton
table keeps the row, and deleting `{"a","b"}` from a two-row table removes
only `"b"`. -/
theorem del_member_keeps_first_position_match :
    del_member [⟨"a", "Sim", "/a"⟩] ["a"] = Except.ok [⟨"a", "Sim", "/a"⟩] ∧
    del_member [⟨"a", "Sim", "/a"⟩, ⟨"b", "Sim", "/b"⟩] ["a", "b"]
      = Except.ok [⟨"a", "Sim", "/a"⟩] ∧
    del_member [⟨"a", "Sim", "/a"⟩] ["zzz"] = Except.ok [⟨"a", "Sim", "/a"⟩] := by decide

/-- Claim C5 (code bug): `remove(all=True)` on a two-member catalog does
not empty the table: the removal list is all uuids, but `del_member` skips
the match at row 0 (falsy index array), so the first row survives, the
table is not the empty sequence, and `len()` afterwards is 1, not 0. -/
theorem removeRun_all_leaves_first_row :
    removeRun
        ⟨some [⟨"a", "Sim", "/a"⟩, ⟨"b", "Sim", "/b"⟩],
         [("a", some ⟨"a", "Sim", "/a", "A"⟩), ("b", some ⟨"b", "Sim", "/b", "B"⟩)]⟩
        [] true
      = (⟨some [⟨"a", "Sim", "/a"⟩], []⟩, Except.ok ()) ∧
    (some [⟨"a", "Sim", "/a"⟩] : Option (List MemberRecord)) ≠ some [] ∧
    (lenRun ⟨fun u => if u = "a" then some ⟨"a", "Sim", "/a", "A"⟩ else none,
        fun s => s, 36, 10, 100⟩ ⟨some [⟨"a", "Sim", "/a"⟩], []⟩).2
      = Except.ok 1 := by decide

/-- Claim C7 (code bug): the event trace of the parallel `map` branch for a
two-member catalog awaits the first task's result before submitting the
second task — submission is not full fan-out before any gather. -/
theorem mapParTrace_awaits_before_full_fanout :
    mapParTrace 2
      = [MapEvent.submit 0, MapEvent.await 0, MapEvent.submit 1, MapEvent.await 1] ∧
    submitsBeforeAwaits (mapParTrace 2) = false := by decide

/-- Claim C1, counterexample: a catalog whose table holds a resolvable
member `"a"` (rediscovered at a new path) followed by an absent member
`"b"` makes `_list` fail with the error naming position 1 and uuid `"b"` —
but the member table is *not* left unchanged: the self-heal re-add already
refreshed `"a"`'s stored path before the failure was raised. -/
theorem listRun_missing_member_table_changed :
    listRun ⟨fun u => if u = "a" then some ⟨"a", "Sim", "/new", "A"⟩ else none,
        fun s => s, 36, 10, 100⟩
      ⟨some [⟨"a", "Sim", "/old"⟩, ⟨"b", "Sim", "/b"⟩], []⟩
    = (⟨some [⟨"a", "Sim", "/new"⟩, ⟨"b", "Sim", "/b"⟩],
        [("a", some ⟨"a", "Sim", "/new", "A"⟩), ("b", none)]⟩,
       Except.error (PyErr.ioError 1 "b")) ∧
    (some [⟨"a", "Sim", "/new"⟩, ⟨"b", "Sim", "/b"⟩] : Option (List MemberRecord))
      ≠ some [⟨"a", "Sim", "/old"⟩, ⟨"b", "Sim", "/b"⟩] := by decide

/-- Claim C2, counterexample: on a table that already stores uuid `"i"`
with kind `"X"`, `add_member("i","A",l1)` followed by `add_member("i","B",l2)`
leaves the single row with kind `"X"`, not `kind1 = "A"` — an upsert never
touches the stored kind, so the claim's universally quantified `kind1`
conclusion fails on tables that already contain the id. -/
theorem add_member_upsert_preexisting_kind :
    add_member ⟨fun _ => none, fun s => s, 36, 10, 100⟩
        (add_member ⟨fun _ => none, fun s => s, 36, 10, 100⟩
          (some [⟨"i", "X", "/l0"⟩]) "i" "A" "/l1")
        "i" "B" "/l2"
      = some [⟨"i", "X", "/l2"⟩] ∧ ("X" : String) ≠ "A" := by decide

/-- Claim C8, counterexample: indexing position 0 of a catalog whose
member 0 is resolvable does not return member 0's handle when the member
at position 1 is unresolvable — `__getitem__` materializes the whole list,
so the failure of the *other* member aborts the indexing. -/
theorem getItem_fails_on_other_member :
    getItem ⟨fun u => if u = "a" then some ⟨"a", "Sim", "/new", "A"⟩ else none,
        fun s => s, 36, 10, 100⟩
      ⟨some [⟨"a", "Sim", "/old"⟩, ⟨"b", "Sim", "/b"⟩], []⟩ 0
    = (⟨some [⟨"a", "Sim", "/new"⟩, ⟨"b", "Sim", "/b"⟩],
        [("a", some ⟨"a", "Sim", "/new", "A"⟩), ("b", none)]⟩,
       Except.error (PyErr.ioError 1 "b")) ∧
    (getItem ⟨fun u => if u = "a" then some ⟨"a", "Sim", "/new", "A"⟩ else none,
        fun s => s, 36, 10, 100⟩
      ⟨some [⟨"a", "Sim", "/old"⟩, ⟨"b", "Sim", "/b"⟩], []⟩ 0).2
      ≠ Except.ok (some ⟨"a", "Sim", "/new", "A"⟩) := by decide

/-- Claim C9, counterexample: with a configured uuid field width of 2,
inserting a member whose id `"abc"` exceeds the width raises no validation
error — the record is stored with the id silently truncated to `"ab"`. -/
theorem add_member_silent_truncation :
    add_member ⟨fun _ => none, fun s => s, 2, 2, 2⟩ none "abc" "S" "/p"
      = some [⟨"ab", "S", "/p"⟩] ∧ ("ab" : String) ≠ "abc" := by decide

/-- Claim C9 (amended): a value exceeding its configured fixed maximum
length is not rejected — the insert always succeeds and stores the value
silently truncated to the maximum, so no row ever carries the over-long
original. -/
theorem add_member_truncates_overlong_values (E : Env) (u k l : String)
    (h : u.take E.uuidlength ≠ u) :
    add_member E none u k l
      = some [⟨u.take E.uuidlength, k.take E.namelength,
               (E.abspath l).take E.pathlength⟩] ∧
    ∀ rows, add_member E none u k l = some rows → ∀ r ∈ rows, r.uuid ≠ u := by
  refine ⟨rfl, ?_⟩
  intro rows hrows r hr
  simp only [add_member, member2record, Option.some.injEq] at hrows
  subst hrows
  simp only [List.mem_singleton] at hr
  subst hr
  exact h

/-- Claim C9, witness: the amended theorem evaluated at uuid width 2 and
id `"abc"`. -/
theorem add_member_truncates_overlong_values_witness :
    add_member ⟨fun _ => none, fun s => s, 2, 2, 2⟩ none "abc" "S" "/p"
      = some [⟨"abc".take 2, "S".take 2, "/p".take 2⟩] ∧
    ∀ rows, add_member ⟨fun _ => none, fun s => s, 2, 2, 2⟩ none "abc" "S" "/p"
      = some rows → ∀ r ∈ rows, r.uuid ≠ "abc" :=
  add_member_truncates_overlong_values ⟨fun _ => none, fun s => s, 2, 2, 2⟩
    "abc" "S" "/p" (by decide)

/-- Helper: `updateFirstLoc` on a table whose only match is the appended
last row rewrites that row's `abspath` and nothing else. -/
theorem updateFirstLoc_append_last (uuid loc : String) (r0 : MemberRecord)
    (h0 : r0.uuid = uuid) :
    ∀ rows : List MemberRecord, (∀ r ∈ rows, r.uuid ≠ uuid) →
      updateFirstLoc uuid loc (rows ++ [r0])
        = rows ++ [{ r0 with abspath := loc }]
  | [], _ => by simp [updateFirstLoc, h0]
  | r :: rs, hfree => by
      have hr : r.uuid ≠ uuid := hfree r (List.mem_cons_self r rs)
      simp only [List.cons_append, updateFirstLoc, if_neg hr, List.append_eq]
      rw [updateFirstLoc_append_last uuid loc r0 h0 rs
        (fun x hx => hfree x (List.mem_cons_of_mem r hx))]

/-- Claim C2 (amended): when the table does not yet contain `id` (and `id`
and `kind1` fit their configured field widths), `upsert(id, kind1, loc1)`
followed by `upsert(id, kind2, loc2)` leaves exactly one row for `id` —
appended at the end, with kind `kind1` and the normalized `loc2`; the
second upsert updated the location only and neither duplicated the row nor
stored `kind2`. -/
theorem add_member_upsert_fresh_id (E : Env) (rows : List MemberRecord)
    (id k1 l1 k2 l2 : String)
    (hfree : ∀ r ∈ rows, r.uuid ≠ id)
    (hu : id.take E.uuidlength = id) (hk : k1.take E.namelength = k1) :
    ∃ rows2,
      add_member E (add_member E (some rows) id k1 l1) id k2 l2 = some rows2 ∧
      rows2 = rows ++ [⟨id, k1, (E.abspath l2).take E.pathlength⟩] ∧
      rows2.filter (fun r => r.uuid = id)
        = [⟨id, k1, (E.abspath l2).take E.pathlength⟩] := by
  have hany : rows.any (fun r => r.uuid = id) = false := by
    simp only [List.any_eq_false, decide_eq_true_eq]
    exact hfree
  have hrec : member2record E id k1 l1
      = ⟨id, k1, (E.abspath l1).take E.pathlength⟩ := by
    simp [member2record, hu, hk]
  have h1 : add_member E (some rows) id k1 l1
      = some (rows ++ [⟨id, k1, (E.abspath l1).take E.pathlength⟩]) := by
    simp [add_member, hany, hrec]
  have hany2 : (rows ++ [(⟨id, k1, (E.abspath l1).take E.pathlength⟩ : MemberRecord)]).any
      (fun r => r.uuid = id) = true := by
    simp [List.any_append]
  have h2 : add_member E (some (rows ++ [⟨id, k1, (E.abspath l1).take E.pathlength⟩]))
      id k2 l2
      = some (rows ++ [⟨id, k1, (E.abspath l2).take E.pathlength⟩]) := by
    simp only [add_member, hany2, if_true]
    rw [updateFirstLoc_append_last id ((E.abspath l2).take E.pathlength)
      ⟨id, k1, (E.abspath l1).take E.pathlength⟩ rfl rows hfree]
  refine ⟨rows ++ [⟨id, k1, (E.abspath l2).take E.pathlength⟩], ?_, rfl, ?_⟩
  · rw [h1, h2]
  · rw [List.filter_append]
    have hnil : rows.filter (fun r => decide (r.uuid = id)) = [] := by
      rw [List.filter_eq_nil_iff]
      intro r hr
      simpa using hfree r hr
    simp [hnil]

/-- Claim C2, witness: the amended theorem evaluated on a one-row table
free of the inserted id. -/
theorem add_member_upsert_fresh_id_witness :
    ∃ rows2,
      add_member ⟨fun _ => none, fun s => s, 36, 10, 100⟩
          (add_member ⟨fun _ => none, fun s => s, 36, 10, 100⟩
            (some [⟨"z", "S", "/z"⟩]) "i" "A" "/l1") "i" "B" "/l2"
        = some rows2 ∧
      rows2 = [⟨"z", "S", "/z"⟩] ++ [⟨"i", "A", "/l2".take 100⟩] ∧
      rows2.filter (fun r => r.uuid = "i") = [⟨"i", "A", "/l2".take 100⟩] :=
  add_member_upsert_fresh_id ⟨fun _ => none, fun s => s, 36, 10, 100⟩
    [⟨"z", "S", "/z"⟩] "i" "A" "/l1" "B" "/l2" (by decide) (by decide) (by decide)

/-- Helper: the argument-validation loop of `remove` raises the
invalid-argument `TypeError` whenever some argument is neither an index
nor a container, provided every integer argument indexes validly. -/
theorem buildRemove_error_of_other (uuids : List String) :
    ∀ args : List RemoveArg, RemoveArg.other ∈ args →
      (∀ i : Int, RemoveArg.index i ∈ args → ∃ u, pyIndex uuids i = Except.ok u) →
      buildRemove uuids args
        = Except.error (PyErr.typeError "Only an integer or container acceptable")
  | [], hbad, _ => absurd hbad (List.not_mem_nil _)
  | RemoveArg.index i :: rest, hbad, hidx => by
      obtain ⟨u, hu⟩ := hidx i (List.mem_cons_self _ _)
      have hbad' : RemoveArg.other ∈ rest := by
        rcases List.mem_cons.mp hbad with h | h
        · exact absurd h.symm (by simp)
        · exact h
      have ih := buildRemove_error_of_other uuids rest hbad'
        (fun j hj => hidx j (List.mem_cons_of_mem _ hj))
      simp only [buildRemove, hu, ih]
  | RemoveArg.cont c :: rest, hbad, hidx => by
      have hbad' : RemoveArg.other ∈ rest := by
        rcases List.mem_cons.mp hbad with h | h
        · exact absurd h.symm (by simp)
        · exact h
      have ih := buildRemove_error_of_other uuids rest hbad'
        (fun j hj => hidx j (List.mem_cons_of_mem _ hj))
      simp only [buildRemove, ih]
  | RemoveArg.other :: _, _, _ => rfl

/-- Claim C10: a `remove` call whose argument list contains an argument
that is neither an integer index nor a container raises the
invalid-argument `TypeError` during argument validation, before
`del_member` or any cache pop runs — the returned state is exactly the
input state, so neither the member table nor the object cache changed,
even when earlier arguments were valid. -/
theorem removeRun_invalid_argument_atomic (st : CatalogState)
    (rows : List MemberRecord) (members : List RemoveArg)
    (htable : st.table = some rows)
    (hbad : RemoveArg.other ∈ members)
    (hidx : ∀ i : Int, RemoveArg.index i ∈ members →
        ∃ u, pyIndex (rows.map (fun r => r.uuid)) i = Except.ok u) :
    removeRun st members false
      = (st, Except.error (PyErr.typeError "Only an integer or container acceptable")) := by
  rcases st with ⟨tb, cache⟩
  simp only at htable
  subst htable
  have hbr := buildRemove_error_of_other (rows.map (fun r => r.uuid)) members hbad hidx
  simp [removeRun, hbr]

/-- Claim C10, witness: `remove(0, <garbage>)` on a one-member catalog
errors and leaves the state untouched even though the first argument was a
valid index. -/
theorem removeRun_invalid_argument_atomic_witness :
    removeRun ⟨some [⟨"a", "Sim", "/a"⟩], [("a", some ⟨"a", "Sim", "/a", "A"⟩)]⟩
        [RemoveArg.index 0, RemoveArg.other] false
      = (⟨some [⟨"a", "Sim", "/a"⟩], [("a", some ⟨"a", "Sim", "/a", "A"⟩)]⟩,
         Except.error (PyErr.typeError "Only an integer or container acceptable")) :=
  removeRun_invalid_argument_atomic
    ⟨some [⟨"a", "Sim", "/a"⟩], [("a", some ⟨"a", "Sim", "/a", "A"⟩)]⟩
    [⟨"a", "Sim", "/a"⟩] [RemoveArg.index 0, RemoveArg.other] rfl
    (by decide)
    (by
      intro i hi
      have hi0 : i = 0 := by
        rcases List.mem_cons.mp hi with h | h
        · exact RemoveArg.index.inj h.symm ▸ rfl
        · simp at h
      subst hi0
      exact ⟨"a", by decide⟩)

/-- Helper: the fill loop of `_list` raises the member-not-found
`IOError` as soon as some pending uuid resolves to absent, naming that
uuid and its ordinal position (`uuids.index(uuid)`) in the table. -/
theorem fillLoop_error_of_missing (E : Env) (uuids : List String) :
    ∀ (fl : List String) (memberlist : List (Option Container)),
      (∃ u ∈ fl, E.resolve u = none) →
      ∃ u, u ∈ fl ∧ E.resolve u = none ∧
        fillLoop E uuids fl memberlist
          = Except.error (PyErr.ioError (uuids.indexOf u) u)
  | [], _, h => absurd h (by simp)
  | u0 :: rest, memberlist, h => by
      cases hres : E.resolve u0 with
      | none =>
          exact ⟨u0, List.mem_cons_self _ _, hres, by simp [fillLoop, hres]⟩
      | some c =>
          have hrest : ∃ u ∈ rest, E.resolve u = none := by
            obtain ⟨u, hu, hnone⟩ := h
            rcases List.mem_cons.mp hu with rfl | hmem
            · exact absurd hres (by simp [hnone])
            · exact ⟨u, hmem, hnone⟩
          obtain ⟨u, hu, hnone, heq⟩ := fillLoop_error_of_missing E uuids rest
            (memberlist.set (uuids.indexOf u0) (some c)) hrest
          exact ⟨u, List.mem_cons_of_mem _ hu, hnone, by simp [fillLoop, hres, heq]⟩

/-- Claim C1 (amended): whenever some table uuid is pending (no truthy
cache entry) and the resolver maps it to absent, `_list` fails with the
member-not-found `IOError` carrying the ordinal table position and the
uuid of such a member.  The table is *not* guaranteed unchanged: the cache
merge and the self-healing re-add of every successfully resolved member run
before the failure is raised (see `listRun_missing_member_table_changed`). -/
theorem listRun_missing_member_fail_fast (E : Env) (st : CatalogState)
    (rows : List MemberRecord) (htable : st.table = some rows)
    (hmiss : ∃ u ∈ rows.map (fun r => r.uuid),
        truthyCached st.cache u = none ∧ E.resolve u = none) :
    ∃ u, u ∈ rows.map (fun r => r.uuid) ∧ truthyCached st.cache u = none ∧
      E.resolve u = none ∧
      (listRun E st).2
        = Except.error
            (PyErr.ioError ((rows.map (fun r => r.uuid)).indexOf u) u) := by
  rcases st with ⟨tb, cache⟩
  simp only at htable
  subst htable
  obtain ⟨u, hu, htc, hres⟩ := hmiss
  have hufl : u ∈ (rows.map (fun r => r.uuid)).filter
      (fun u => (truthyCached cache u).isNone) := by
    rw [List.mem_filter]
    exact ⟨hu, by simp [htc]⟩
  obtain ⟨u', hu', hres', heq⟩ := fillLoop_error_of_missing E
    (rows.map (fun r => r.uuid))
    ((rows.map (fun r => r.uuid)).filter (fun u => (truthyCached cache u).isNone))
    ((rows.map (fun r => r.uuid)).map (fun u => truthyCached cache u))
    ⟨u, hufl, hres⟩
  have hmem := List.mem_filter.mp hu'
  refine ⟨u', hmem.1, ?_, hres', ?_⟩
  · have := hmem.2
    simp only [Option.isNone_iff_eq_none, decide_eq_true_eq] at this
    exact this
  · simp only [listRun]
    rw [heq]

/-- Claim C1, witness: the amended fail-fast theorem evaluated on a
one-member catalog whose resolver finds nothing. -/
theorem listRun_missing_member_fail_fast_witness :
    ∃ u, u ∈ ([⟨"a", "Sim", "/a"⟩] : List MemberRecord).map (fun r => r.uuid) ∧
      truthyCached [] u = none ∧
      (Env.resolve ⟨fun _ => none, fun s => s, 36, 10, 100⟩) u = none ∧
      (listRun ⟨fun _ => none, fun s => s, 36, 10, 100⟩
          ⟨some [⟨"a", "Sim", "/a"⟩], []⟩).2
        = Except.error
            (PyErr.ioError
              ((([⟨"a", "Sim", "/a"⟩] : List MemberRecord).map
                (fun r => r.uuid)).indexOf u) u) :=
  listRun_missing_member_fail_fast ⟨fun _ => none, fun s => s, 36, 10, 100⟩
    ⟨some [⟨"a", "Sim", "/a"⟩], []⟩ [⟨"a", "Sim", "/a"⟩] rfl
    ⟨"a", by decide, by decide, rfl⟩

/-- Claim C8 (amended): integer indexing materializes the *entire* member
list: whenever `_list` fails (for instance because a member at a different
position is unresolvable), indexing fails with the same error for every
position, and when `_list` succeeds, indexing a valid position `i` returns
element `i` of the fully resolved list. -/
theorem getItem_resolves_entire_list (E : Env) (st : CatalogState) (i : Nat) :
    (∀ st' e, listRun E st = (st', Except.error e) →
        getItem E st i = (st', Except.error e)) ∧
    (∀ st' memberlist, listRun E st = (st', Except.ok memberlist) →
        i < memberlist.length →
        ∃ v, memberlist.get? i = some v ∧ getItem E st i = (st', Except.ok v)) := by
  constructor
  · intro st' e h
    simp [getItem, h]
  · intro st' memberlist h hi
    have hv : memberlist.get? i = some (memberlist.get ⟨i, hi⟩) :=
      List.get?_eq_get hi
    refine ⟨memberlist.get ⟨i, hi⟩, hv, ?_⟩
    simp only [getItem, h, hv]

/-- Helper: after overwriting key `k` in place, lookup of `k` finds the new
value, provided some binding of `k` existed. -/
theorem find?_map_set_of_mem {α : Type _} (k : String) (v : α) :
    ∀ d : List (String × α), (∃ p ∈ d, p.1 = k) →
      (d.map (fun p => if p.1 = k then (k, v) else p)).find?
          (fun p => p.1 = k) = some (k, v)
  | [], h => absurd h (by simp)
  | p0 :: rest, h => by
      by_cases h0 : p0.1 = k
      · simp [List.find?, h0]
      · have hrest : ∃ p ∈ rest, p.1 = k := by
          obtain ⟨p, hp, hpk⟩ := h
          rcases List.mem_cons.mp hp with rfl | hmem
          · exact absurd hpk h0
          · exact ⟨p, hmem, hpk⟩
        simp only [List.map_cons, if_neg h0, List.find?]
        rw [decide_eq_false h0]
        exact find?_map_set_of_mem k v rest hrest

/-- Helper: overwriting key `k` in place does not change lookups of other
keys. -/
theorem find?_map_set_ne {α : Type _} (k k' : String) (hne : k' ≠ k) (v : α) :
    ∀ d : List (String × α),
      (d.map (fun p => if p.1 = k then (k, v) else p)).find? (fun p => p.1 = k')
        = d.find? (fun p => p.1 = k')
  | [] => rfl
  | p0 :: rest => by
      by_cases h0 : p0.1 = k
      · have : ¬ p0.1 = k' := fun h => hne (h ▸ h0 ▸ rfl)
        simp only [List.map_cons, if_pos h0, List.find?]
        rw [decide_eq_false (fun h : k = k' => hne h.symm), decide_eq_false this]
        exact find?_map_set_ne k k' hne v rest
      · simp only [List.map_cons, if_neg h0, List.find?]
        cases hd : decide (p0.1 = k') with
        | true => rfl
        | false => exact find?_map_set_ne k k' hne v rest

/-- Helper: `d[k] = v` makes lookup of `k` return `v`. -/
theorem dictGet_set_self {α : Type _} (d : List (String × α)) (k : String) (v : α) :
    dictGet (dictSet d k v) k = some v := by
  unfold dictSet
  by_cases h : d.any (fun p => p.1 = k)
  · rw [if_pos h]
    have hex : ∃ p ∈ d, p.1 = k := by
      simpa using h
    unfold dictGet
    rw [find?_map_set_of_mem k v d hex]
    rfl
  · rw [if_neg h]
    have hnone : d.find? (fun p => p.1 = k) = none := by
      rw [List.find?_eq_none]
      intro p hp hpk
      exact h (List.any_eq_true.mpr ⟨p, hp, hpk⟩)
    unfold dictGet
    rw [List.find?_append, hnone]
    simp [List.find?]

/-- Helper: `d[k] = v` does not change lookup of a different key. -/
theorem dictGet_set_ne {α : Type _} (d : List (String × α)) (k k' : String)
    (hne : k' ≠ k) (v : α) : dictGet (dictSet d k v) k' = dictGet d k' := by
  unfold dictSet
  by_cases h : d.any (fun p => p.1 = k)
  · rw [if_pos h]
    unfold dictGet
    rw [find?_map_set_ne k k' hne v d]
  · rw [if_neg h]
    unfold dictGet
    rw [List.find?_append]
    have : ([(k, v)].find? (fun p => p.1 = k')) = none := by
      simp [List.find?, decide_eq_false (fun h : k = k' => hne h.symm)]
    rw [this]
    cases d.find? (fun p => p.1 = k') <;> rfl

/-- Helper: folding dict assignments whose keys avoid `k` leaves lookup of
`k` unchanged. -/
theorem dictGet_foldl_set_not_mem {α : Type _} :
    ∀ (ps : List (String × α)) (d : List (String × α)) (k : String),
      k ∉ ps.map Prod.fst →
      dictGet (ps.foldl (fun c p => dictSet c p.1 p.2) d) k = dictGet d k
  | [], _, _, _ => rfl
  | p :: rest, d, k, hk => by
      have hne : k ≠ p.1 := by
        intro h
        exact hk (by simp [h])
      have hrest : k ∉ rest.map Prod.fst := fun h => hk (by simp [h])
      rw [List.foldl_cons,
        dictGet_foldl_set_not_mem rest (dictSet d p.1 p.2) k hrest,
        dictGet_set_ne d p.1 k hne p.2]

/-- Helper: folding dict assignments with pairwise distinct keys makes
lookup of each assigned key return its assigned value. -/
theorem dictGet_foldl_set_mem {α : Type _} :
    ∀ (ps : List (String × α)) (d : List (String × α)) (k : String) (v : α),
      (ps.map Prod.fst).Nodup → (k, v) ∈ ps →
      dictGet (ps.foldl (fun c p => dictSet c p.1 p.2) d) k = some v
  | [], _, _, _, _, hmem => absurd hmem (by simp)
  | p :: rest, d, k, v, hnd, hmem => by
      rw [List.map_cons, List.nodup_cons] at hnd
      rw [List.foldl_cons]
      rcases List.mem_cons.mp hmem with rfl | hmem'
      · exact (dictGet_foldl_set_not_mem rest (dictSet d k v) k hnd.1).trans
          (dictGet_set_self d k v)
      · exact dictGet_foldl_set_mem rest (dictSet d p.1 p.2) k v hnd.2 hmem'

/-- Claim C8, witness: the amended indexing theorem evaluated on a
fully-resolvable one-member catalog. -/
theorem getItem_resolves_entire_list_witness :
    ∃ v, ([some ⟨"a", "Sim", "/a", "A"⟩] : List (Option Container)).get? 0 = some v ∧
      getItem ⟨fun u => if u = "a" then some ⟨"a", "Sim", "/a", "A"⟩ else none,
          fun s => s, 36, 10, 100⟩
        ⟨some [⟨"a", "Sim", "/a"⟩], []⟩ 0
      = (⟨some [⟨"a", "Sim", "/a"⟩], [("a", some ⟨"a", "Sim", "/a", "A"⟩)]⟩,
         Except.ok v) :=
  (getItem_resolves_entire_list
      ⟨fun u => if u = "a" then some ⟨"a", "Sim", "/a", "A"⟩ else none,
        fun s => s, 36, 10, 100⟩
      ⟨some [⟨"a", "Sim", "/a"⟩], []⟩ 0).2
    ⟨some [⟨"a", "Sim", "/a"⟩], [("a", some ⟨"a", "Sim", "/a", "A"⟩)]⟩
    [some ⟨"a", "Sim", "/a", "A"⟩] (by decide) (by decide)

/-- Helper: overwriting the `abspath` of the first matching row leaves the
uuid column unchanged. -/
theorem updateFirstLoc_map_uuid (uuid loc : String) :
    ∀ rows : List MemberRecord,
      (updateFirstLoc uuid loc rows).map (fun r => r.uuid)
        = rows.map (fun r => r.uuid)
  | [] => rfl
  | r :: rs => by
      by_cases h : r.uuid = uuid
      · simp [updateFirstLoc, h]
      · simp only [updateFirstLoc, if_neg h, List.map_cons]
        rw [updateFirstLoc_map_uuid uuid loc rs]

/-- Helper: `add_member` for a uuid already present in the table takes the
update branch. -/
theorem add_member_of_mem (E : Env) (rows : List MemberRecord)
    (uuid containertype basedir : String)
    (h : uuid ∈ rows.map (fun r => r.uuid)) :
    add_member E (some rows) uuid containertype basedir
      = some (updateFirstLoc uuid ((E.abspath basedir).take E.pathlength) rows) := by
  have hany : rows.any (fun r => r.uuid = uuid) = true := by
    rw [List.any_eq_true]
    obtain ⟨r, hr, hru⟩ := List.mem_map.mp h
    exact ⟨r, hr, by simpa using hru⟩
  simp [add_member, hany]

/-- Helper: the self-healing re-add loop of `_list` (a fold of
`add_member` over the found containers) keeps the table defined and keeps
its uuid column unchanged, provided every re-added container's uuid is
already a table uuid. -/
theorem add_member_foldl_uuid (E : Env) :
    ∀ (cs : List Container) (rows : List MemberRecord),
      (∀ c ∈ cs, c.uuid ∈ rows.map (fun r => r.uuid)) →
      ∃ rows',
        cs.foldl (fun t c => add_member E t c.uuid c.containertype c.basedir)
            (some rows) = some rows' ∧
        rows'.map (fun r => r.uuid) = rows.map (fun r => r.uuid)
  | [], rows, _ => ⟨rows, rfl, rfl⟩
  | c :: rest, rows, h => by
      rw [List.foldl_cons,
        add_member_of_mem E rows c.uuid c.containertype c.basedir
          (h c (List.mem_cons_self _ _))]
      have hmap := updateFirstLoc_map_uuid c.uuid
        ((E.abspath c.basedir).take E.pathlength) rows
      obtain ⟨rows', hfold, hmap'⟩ := add_member_foldl_uuid E rest
        (updateFirstLoc c.uuid ((E.abspath c.basedir).take E.pathlength) rows)
        (fun c' hc' => by rw [hmap]; exact h c' (List.mem_cons_of_mem _ hc'))
      exact ⟨rows', hfold, hmap'.trans hmap⟩

/-- Helper: when every pending uuid resolves, the fill loop succeeds, and
the resulting member list holds the resolver's container at each pending
uuid's table position and the original entry everywhere else. -/
theorem fillLoop_ok (E : Env) (uuids : List String) (hnd : uuids.Nodup) :
    ∀ (fl : List String) (memberlist : List (Option Container)),
      fl.Nodup → (∀ u ∈ fl, u ∈ uuids) → (∀ u ∈ fl, (E.resolve u).isSome) →
      memberlist.length = uuids.length →
      ∃ ml', fillLoop E uuids fl memberlist = Except.ok ml' ∧
        ml'.length = uuids.length ∧
        ∀ i (hi : i < uuids.length),
          ml'.get? i = if uuids.get ⟨i, hi⟩ ∈ fl
                       then some (E.resolve (uuids.get ⟨i, hi⟩))
                       else memberlist.get? i
  | [], memberlist, _, _, _, hlen => by
      refine ⟨memberlist, rfl, hlen, ?_⟩
      intro i hi
      simp
  | u0 :: rest, memberlist, hflnd, hsub, hres, hlen => by
      have hu0 : u0 ∈ uuids := hsub u0 (List.mem_cons_self _ _)
      have hidx : uuids.indexOf u0 < uuids.length := List.indexOf_lt_length.mpr hu0
      obtain ⟨c, hc⟩ := Option.isSome_iff_exists.mp (hres u0 (List.mem_cons_self _ _))
      rw [List.nodup_cons] at hflnd
      obtain ⟨ml', hok, hlen', hpt⟩ := fillLoop_ok E uuids hnd rest
        (memberlist.set (uuids.indexOf u0) (some c))
        hflnd.2 (fun u hu => hsub u (List.mem_cons_of_mem _ hu))
        (fun u hu => hres u (List.mem_cons_of_mem _ hu))
        (by rw [List.length_set]; exact hlen)
      refine ⟨ml', ?_, hlen', ?_⟩
      · simp only [fillLoop, hc]
        exact hok
      · intro i hi
        have hgoal := hpt i hi
        by_cases hmem : uuids.get ⟨i, hi⟩ ∈ rest
        · rw [hgoal, if_pos hmem, if_pos (List.mem_cons_of_mem _ hmem)]
        · rw [hgoal, if_neg hmem]
          by_cases heq : uuids.get ⟨i, hi⟩ = u0
          · have hieq : uuids.indexOf u0 = i := by
              have h1 : uuids.get ⟨uuids.indexOf u0, hidx⟩ = u0 :=
                List.indexOf_get hidx
              have h2 : uuids.get ⟨uuids.indexOf u0, hidx⟩ = uuids.get ⟨i, hi⟩ := by
                rw [h1, heq]
              exact congrArg Fin.val ((List.Nodup.get_inj_iff hnd).mp h2)
            rw [if_pos (by rw [heq]; exact List.mem_cons_self _ _)]
            rw [heq, hc]
            rw [List.get?_eq_getElem?, ← hieq]
            exact List.getElem?_set_self (by rw [hieq, hlen]; exact hi)
          · rw [if_neg (by
              intro hmem'
              rcases List.mem_cons.mp hmem' with h | h
              · exact heq h
              · exact hmem h)]
            have hne : uuids.indexOf u0 ≠ i := by
              intro h
              apply heq
              have h1 : uuids[uuids.indexOf u0]? = some u0 :=
                List.getElem?_indexOf hu0
              rw [h, List.getElem?_eq_getElem hi] at h1
              exact Option.some.inj h1
            rw [List.get?_eq_getElem?, List.get?_eq_getElem?,
              List.getElem?_set_ne hne]

/-- Helper: with no truthy cache hit, `resolveOne` is the resolver outcome. -/
theorem resolveOne_pending (E : Env) (cache : List (String × Option Container))
    (u : String) (h : truthyCached cache u = none) :
    resolveOne E cache u = E.resolve u := by
  unfold resolveOne
  rw [h]

/-- Helper: with a truthy cache hit, `resolveOne` is that hit. -/
theorem resolveOne_hit (E : Env) (cache : List (String × Option Container))
    (u : String) (c : Container) (h : truthyCached cache u = some c) :
    resolveOne E cache u = some c := by
  unfold resolveOne
  rw [h]

/-- Helper: a cache whose binding of `u` is a truthy container yields that
container as the cache hit. -/
theorem truthyCached_of_some (d : List (String × Option Container)) (u : String)
    (c : Container) (h : dictGet d u = some (some c)) :
    truthyCached d u = some c := by
  unfold truthyCached
  rw [h]

/-- Helper: caches agreeing on the binding of `u` agree on the truthy hit. -/
theorem truthyCached_of_dictGet_eq (d d' : List (String × Option Container))
    (u : String) (h : dictGet d u = dictGet d' u) :
    truthyCached d u = truthyCached d' u := by
  unfold truthyCached
  rw [h]

/-- Helper: on a defined table with pairwise distinct uuids, when every
member either has a truthy cache hit or is found by the resolver (with a
coherent uuid), `_list` succeeds: it returns, in table order, the cache hit
or freshly resolved container of each member; the post-state's table keeps
the same uuid column and its cache answers every member uuid with exactly
that container. -/
theorem listRun_ok (E : Env) (rows : List MemberRecord)
    (cache : List (String × Option Container))
    (hnd : (rows.map (fun r => r.uuid)).Nodup)
    (hres : ∀ u ∈ rows.map (fun r => r.uuid), (resolveOne E cache u).isSome)
    (hco : ∀ u ∈ rows.map (fun r => r.uuid),
        (resolveOne E cache u).all (fun c => c.uuid = u)) :
    ∃ rows' cache',
      listRun E ⟨some rows, cache⟩
        = (⟨some rows', cache'⟩,
           Except.ok ((rows.map (fun r => r.uuid)).map (fun u => resolveOne E cache u))) ∧
      rows'.map (fun r => r.uuid) = rows.map (fun r => r.uuid) ∧
      ∀ u ∈ rows.map (fun r => r.uuid),
        truthyCached cache' u = resolveOne E cache u := by
  have hfl_sub : ∀ u ∈ (rows.map (fun r => r.uuid)).filter
      (fun u => (truthyCached cache u).isNone), u ∈ rows.map (fun r => r.uuid) :=
    fun u hu => (List.mem_filter.mp hu).1
  have hfl_none : ∀ u ∈ (rows.map (fun r => r.uuid)).filter
      (fun u => (truthyCached cache u).isNone), truthyCached cache u = none :=
    fun u hu => by
      have := (List.mem_filter.mp hu).2
      simpa [Option.isNone_iff_eq_none] using this
  have hfl_nd : ((rows.map (fun r => r.uuid)).filter
      (fun u => (truthyCached cache u).isNone)).Nodup := hnd.filter _
  have hfl_res : ∀ u ∈ (rows.map (fun r => r.uuid)).filter
      (fun u => (truthyCached cache u).isNone), (E.resolve u).isSome :=
    fun u hu => by
      have h1 := hres u (hfl_sub u hu)
      rw [resolveOne_pending E cache u (hfl_none u hu)] at h1
      exact h1
  obtain ⟨ml', hfill, hlen', hpt⟩ := fillLoop_ok E (rows.map (fun r => r.uuid)) hnd
    ((rows.map (fun r => r.uuid)).filter (fun u => (truthyCached cache u).isNone))
    ((rows.map (fun r => r.uuid)).map (fun u => truthyCached cache u))
    hfl_nd hfl_sub hfl_res (by rw [List.length_map])
  have hml : ml' = (rows.map (fun r => r.uuid)).map (fun u => resolveOne E cache u) := by
    rw [List.ext_get?_iff]
    intro n
    by_cases hn : n < (rows.map (fun r => r.uuid)).length
    · have hrhs : ((rows.map (fun r => r.uuid)).map
          (fun u => resolveOne E cache u)).get? n
          = some (resolveOne E cache ((rows.map (fun r => r.uuid)).get ⟨n, hn⟩)) := by
        rw [List.get?_eq_getElem?, List.getElem?_map, List.getElem?_eq_getElem hn]
        rfl
      have hlhs : ((rows.map (fun r => r.uuid)).map
          (fun u => truthyCached cache u)).get? n
          = some (truthyCached cache ((rows.map (fun r => r.uuid)).get ⟨n, hn⟩)) := by
        rw [List.get?_eq_getElem?, List.getElem?_map, List.getElem?_eq_getElem hn]
        rfl
      rw [hpt n hn]
      by_cases hmem : (rows.map (fun r => r.uuid)).get ⟨n, hn⟩
          ∈ (rows.map (fun r => r.uuid)).filter (fun u => (truthyCached cache u).isNone)
      · rw [if_pos hmem, hrhs]
        exact congrArg some (resolveOne_pending E cache _ (hfl_none _ hmem)).symm
      · rw [if_neg hmem, hlhs, hrhs]
        have hu : (rows.map (fun r => r.uuid)).get ⟨n, hn⟩ ∈ rows.map (fun r => r.uuid) :=
          List.get_mem _ _ _
        have hsome : ¬ (truthyCached cache ((rows.map (fun r => r.uuid)).get ⟨n, hn⟩)).isNone = true := by
          intro hnone
          exact hmem (List.mem_filter.mpr ⟨hu, by simpa using hnone⟩)
        obtain ⟨c, hc⟩ : ∃ c, truthyCached cache ((rows.map (fun r => r.uuid)).get ⟨n, hn⟩) = some c := by
          cases h : truthyCached cache ((rows.map (fun r => r.uuid)).get ⟨n, hn⟩) with
          | none => exact absurd (by rw [h]; rfl) hsome
          | some c => exact ⟨c, rfl⟩
        rw [hc, resolveOne_hit E cache _ c hc]
    · rw [List.get?_eq_getElem?, List.get?_eq_getElem?,
        List.getElem?_eq_none (by rw [hlen']; omega),
        List.getElem?_eq_none (by rw [List.length_map]; omega)]
  have hkeys : ((((rows.map (fun r => r.uuid)).filter
      (fun u => (truthyCached cache u).isNone)).map
        (fun u => (u, E.resolve u))).map Prod.fst)
      = (rows.map (fun r => r.uuid)).filter (fun u => (truthyCached cache u).isNone) := by
    rw [List.map_map]
    exact List.map_id'' (fun u => rfl) _
  have hc_pending : ∀ u ∈ (rows.map (fun r => r.uuid)).filter
      (fun u => (truthyCached cache u).isNone),
      dictGet ((((rows.map (fun r => r.uuid)).filter
          (fun u => (truthyCached cache u).isNone)).map
            (fun u => (u, E.resolve u))).foldl (fun c p => dictSet c p.1 p.2) cache) u
        = some (E.resolve u) :=
    fun u hu => dictGet_foldl_set_mem _ cache u (E.resolve u)
      (by rw [hkeys]; exact hfl_nd) (List.mem_map_of_mem _ hu)
  have hc_miss : ∀ u, u ∉ (rows.map (fun r => r.uuid)).filter
      (fun u => (truthyCached cache u).isNone) →
      dictGet ((((rows.map (fun r => r.uuid)).filter
          (fun u => (truthyCached cache u).isNone)).map
            (fun u => (u, E.resolve u))).foldl (fun c p => dictSet c p.1 p.2) cache) u
        = dictGet cache u :=
    fun u hu => dictGet_foldl_set_not_mem _ cache u (by rw [hkeys]; exact hu)
  have htruthy : ∀ u ∈ rows.map (fun r => r.uuid),
      truthyCached ((((rows.map (fun r => r.uuid)).filter
          (fun u => (truthyCached cache u).isNone)).map
            (fun u => (u, E.resolve u))).foldl (fun c p => dictSet c p.1 p.2) cache) u
        = resolveOne E cache u := by
    intro u hu
    by_cases hp : u ∈ (rows.map (fun r => r.uuid)).filter
        (fun u => (truthyCached cache u).isNone)
    · obtain ⟨c, hc⟩ := Option.isSome_iff_exists.mp (hfl_res u hp)
      rw [truthyCached_of_some _ u c (by rw [hc_pending u hp, hc]),
        resolveOne_pending E cache u (hfl_none u hp), hc]
    · rw [truthyCached_of_dictGet_eq _ cache u (hc_miss u hp)]
      have hsome : ¬ (truthyCached cache u).isNone = true := by
        intro hnone
        exact hp (List.mem_filter.mpr ⟨hu, by simpa using hnone⟩)
      obtain ⟨c, hc⟩ : ∃ c, truthyCached cache u = some c := by
        cases h : truthyCached cache u with
        | none => exact absurd (by rw [h]; rfl) hsome
        | some c => exact ⟨c, rfl⟩
      rw [hc, resolveOne_hit E cache u c hc]
  have hcs : ∀ c ∈ ((((rows.map (fun r => r.uuid)).filter
      (fun u => (truthyCached cache u).isNone)).map
        (fun u => (u, E.resolve u))).filterMap (fun p => p.2)),
      c.uuid ∈ rows.map (fun r => r.uuid) := by
    intro c hc
    rw [List.mem_filterMap] at hc
    obtain ⟨p, hp, hpc⟩ := hc
    rw [List.mem_map] at hp
    obtain ⟨u, hu, hup⟩ := hp
    have hresu : E.resolve u = some c := by rw [← hpc, ← hup]
    have hall := hco u (hfl_sub u hu)
    rw [resolveOne_pending E cache u (hfl_none u hu), hresu] at hall
    have : c.uuid = u := by simpa using hall
    rw [this]
    exact hfl_sub u hu
  obtain ⟨rows', hfold, hmap⟩ := add_member_foldl_uuid E
    ((((rows.map (fun r => r.uuid)).filter
      (fun u => (truthyCached cache u).isNone)).map
        (fun u => (u, E.resolve u))).filterMap (fun p => p.2)) rows hcs
  refine ⟨rows', _, ?_, hmap, htruthy⟩
  simp only [listRun]
  rw [hfill, hml, hfold]

/-- Helper: a state in which every table uuid has a truthy cache hit is a
fixpoint of `_list`: nothing is pending, so the cache merge and the re-add
are no-ops and the returned members are exactly the cache hits in table
order. -/
theorem listRun_fixpoint (E : Env) (rows' : List MemberRecord)
    (cache' : List (String × Option Container))
    (h : ∀ u ∈ rows'.map (fun r => r.uuid), (truthyCached cache' u).isSome) :
    listRun E ⟨some rows', cache'⟩
      = (⟨some rows', cache'⟩,
         Except.ok ((rows'.map (fun r => r.uuid)).map
           (fun u => truthyCached cache' u))) := by
  have hfl : (rows'.map (fun r => r.uuid)).filter
      (fun u => (truthyCached cache' u).isNone) = [] := by
    rw [List.filter_eq_nil_iff]
    intro u hu
    obtain ⟨c, hc⟩ := Option.isSome_iff_exists.mp (h u hu)
    simp [hc]
  simp only [listRun, hfl]
  simp [fillLoop]

/-- Helper: indexing at a `_list` fixpoint returns the i-th member (or
`IndexError` past the end) and does not move the state. -/
theorem iterAux_fixpoint (E : Env) (st1 : CatalogState)
    (ml : List (Option Container))
    (h : listRun E st1 = (st1, Except.ok ml)) :
    ∀ (fuel i : Nat) (acc : List (Option Container)),
      i ≤ ml.length → ml.length - i < fuel →
      iterAux E fuel st1 i acc = (st1, Except.ok (acc ++ ml.drop i))
  | 0, i, acc, hle, hf => absurd hf (by omega)
  | fuel + 1, i, acc, hle, hf => by
      rcases Nat.lt_or_ge i ml.length with hlt | hge
      · have hget : ml.get? i = some ml[i] := by
          rw [List.get?_eq_getElem?, List.getElem?_eq_getElem hlt]
        have hg : getItem E st1 i = (st1, Except.ok ml[i]) := by
          simp only [getItem, h, hget]
        simp only [iterAux, hg]
        rw [iterAux_fixpoint E st1 ml h fuel (i + 1) (acc ++ [ml[i]])
          (by omega) (by omega)]
        have hdrop : List.drop i ml = ml[i] :: List.drop (i + 1) ml :=
          List.drop_eq_getElem_cons hlt
        rw [hdrop]
        simp
      · have hie : i = ml.length := by omega
        have hget : ml.get? i = none := by
          rw [List.get?_eq_getElem?]
          exact List.getElem?_eq_none (by omega)
        have hg : getItem E st1 i = (st1, Except.error PyErr.indexError) := by
          simp only [getItem, h, hget]
        simp only [iterAux, hg]
        rw [hie, List.drop_length]
        simp

/-- Helper: iterating `for member in self` over a catalog whose first
`_list` call lands in a fixpoint state yields exactly the fixpoint member
list, ending in the fixpoint state. -/
theorem iterSelf_ok (E : Env) (st st1 : CatalogState)
    (ml : List (Option Container))
    (h0 : listRun E st = (st1, Except.ok ml))
    (h1 : listRun E st1 = (st1, Except.ok ml))
    (hlen : tableLen st = ml.length) :
    iterSelf E st = (st1, Except.ok ml) := by
  unfold iterSelf
  rw [hlen]
  rcases Nat.eq_zero_or_pos ml.length with hz | hpos
  · have hget : ml.get? 0 = none := by
      rw [List.get?_eq_getElem?]
      exact List.getElem?_eq_none (by omega)
    have hg : getItem E st 0 = (st1, Except.error PyErr.indexError) := by
      simp only [getItem, h0, hget]
    simp only [iterAux, hg]
    rw [List.length_eq_zero.mp hz]
  · have hget : ml.get? 0 = some ml[0] := by
      rw [List.get?_eq_getElem?, List.getElem?_eq_getElem hpos]
    have hg : getItem E st 0 = (st1, Except.ok ml[0]) := by
      simp only [getItem, h0, hget]
    simp only [iterAux, hg]
    rw [iterAux_fixpoint E st1 ml h1 ml.length (0 + 1) ([] ++ [ml[0]])
      (by omega) (by omega)]
    have hdrop : List.drop 0 ml = ml[0] :: List.drop (0 + 1) ml :=
      List.drop_eq_getElem_cons hpos
    rw [List.drop_zero, List.drop_one] at hdrop
    simp [← hdrop]

/-- Helper: the result-dict loop of the parallel `map` branch succeeds on a
fully resolved member list with pairwise distinct, coherent uuids, and the
final dict answers each member uuid with the function value of its
container (bindings of other keys are untouched). -/
theorem buildResults_ok {β : Type _} (E : Env)
    (cache : List (String × Option Container)) (f : Option Container → β) :
    ∀ (us : List String) (d0 : List (String × β)),
      us.Nodup →
      (∀ u ∈ us, (resolveOne E cache u).isSome) →
      (∀ u ∈ us, (resolveOne E cache u).all (fun c => c.uuid = u)) →
      ∃ d, buildResults f (us.map (fun u => resolveOne E cache u)) d0
          = Except.ok d ∧
        (∀ u ∈ us, dictGet d u = some (f (resolveOne E cache u))) ∧
        (∀ k, k ∉ us → dictGet d k = dictGet d0 k)
  | [], d0, _, _, _ => ⟨d0, rfl, by simp, fun k _ => rfl⟩
  | u :: rest, d0, hnd, hres, hco => by
      obtain ⟨c, hc⟩ := Option.isSome_iff_exists.mp
        (hres u (List.mem_cons_self _ _))
      have hcu : c.uuid = u := by
        have h2 := hco u (List.mem_cons_self _ _)
        rw [hc] at h2
        simpa using h2
      rw [List.nodup_cons] at hnd
      obtain ⟨d, hok, hget, hpres⟩ := buildResults_ok E cache f rest
        (dictSet d0 c.uuid (f (some c))) hnd.2
        (fun u' hu' => hres u' (List.mem_cons_of_mem _ hu'))
        (fun u' hu' => hco u' (List.mem_cons_of_mem _ hu'))
      refine ⟨d, ?_, ?_, ?_⟩
      · simp only [List.map_cons, hc, buildResults]
        exact hok
      · intro u' hu'
        rcases List.mem_cons.mp hu' with rfl | hmem
        · rw [hpres u' hnd.1, hcu, dictGet_set_self, hc]
        · exact hget u' hmem
      · intro k hk
        have hk1 : k ≠ u := fun h => hk (h ▸ List.mem_cons_self _ _)
        have hk2 : k ∉ rest := fun h => hk (List.mem_cons_of_mem _ h)
        rw [hpres k hk2, dictGet_set_ne d0 c.uuid k (by rw [hcu]; exact hk1)]

/-- Helper: the `[results[uuid] for uuid in self.uuids]` re-projection
succeeds and returns the dict values in uuid order when the dict answers
every uuid. -/
theorem reproject_ok {β : Type _} (d : List (String × β)) (g : String → β) :
    ∀ us : List String, (∀ u ∈ us, dictGet d u = some (g u)) →
      reproject d us = Except.ok (us.map g)
  | [], _ => rfl
  | u :: rest, h => by
      simp only [reproject, h u (List.mem_cons_self _ _),
        reproject_ok d g rest (fun u' hu' => h u' (List.mem_cons_of_mem _ hu')),
        List.map_cons]

/-- Claim C3: on a catalog whose members all resolve (truthy cache hit or
resolver success, with coherent uuids and pairwise distinct table uuids),
`map(f)` with concurrency 1 and with concurrency 4 return the same ordered
result — the list `[f(m) for m in list()]`, aligned index-for-index with
the members `list()` returns — and leave the same state. -/
theorem mapRun_concurrency_order_determinism {β : Type _} (E : Env)
    (st : CatalogState) (rows : List MemberRecord) (f : Option Container → β)
    (htable : st.table = some rows)
    (hnd : (rows.map (fun r => r.uuid)).Nodup)
    (hres : ∀ u ∈ rows.map (fun r => r.uuid), (resolveOne E st.cache u).isSome)
    (hco : ∀ u ∈ rows.map (fun r => r.uuid),
        (resolveOne E st.cache u).all (fun c => c.uuid = u)) :
    ∃ st1 memberlist,
      listRun E st = (st1, Except.ok memberlist) ∧
      mapRun E f 1 st = (st1, Except.ok (memberlist.map f)) ∧
      mapRun E f 4 st = (st1, Except.ok (memberlist.map f)) := by
  rcases st with ⟨tb, cache⟩
  simp only at htable hres hco
  subst htable
  obtain ⟨rows', cache', hrun, hmap, htruthy⟩ := listRun_ok E rows cache hnd hres hco
  have hfix0 : listRun E ⟨some rows', cache'⟩
      = (⟨some rows', cache'⟩,
         Except.ok ((rows'.map (fun r => r.uuid)).map
           (fun u => truthyCached cache' u))) :=
    listRun_fixpoint E rows' cache' (by
      intro u hu
      rw [hmap] at hu
      rw [htruthy u hu]
      exact hres u hu)
  have hval : (rows'.map (fun r => r.uuid)).map (fun u => truthyCached cache' u)
      = (rows.map (fun r => r.uuid)).map (fun u => resolveOne E cache u) := by
    rw [hmap]
    exact List.map_congr_left htruthy
  have hfix : listRun E ⟨some rows', cache'⟩
      = (⟨some rows', cache'⟩,
         Except.ok ((rows.map (fun r => r.uuid)).map
           (fun u => resolveOne E cache u))) := by
    rw [hfix0, hval]
  have hlen : tableLen ⟨some rows, cache⟩
      = ((rows.map (fun r => r.uuid)).map (fun u => resolveOne E cache u)).length := by
    simp [tableLen]
  have hiter : iterSelf E ⟨some rows, cache⟩
      = (⟨some rows', cache'⟩,
         Except.ok ((rows.map (fun r => r.uuid)).map
           (fun u => resolveOne E cache u))) :=
    iterSelf_ok E _ _ _ hrun hfix hlen
  have hseq : mapSeq E f ⟨some rows, cache⟩
      = (⟨some rows', cache'⟩,
         Except.ok (((rows.map (fun r => r.uuid)).map
           (fun u => resolveOne E cache u)).map f)) := by
    simp only [mapSeq, hiter]
  obtain ⟨d, hd, hdget, _⟩ := buildResults_ok E cache f
    (rows.map (fun r => r.uuid)) [] hnd hres hco
  have hgmu : get_members_uuid (some rows')
      = Except.ok (rows.map (fun r => r.uuid)) := by
    simp only [get_members_uuid, hmap]
  have hrp : reproject d (rows.map (fun r => r.uuid))
      = Except.ok ((rows.map (fun r => r.uuid)).map
          (fun u => f (resolveOne E cache u))) :=
    reproject_ok d _ _ (fun u hu => hdget u hu)
  have hpar : mapPar E f ⟨some rows, cache⟩
      = (⟨some rows', cache'⟩,
         Except.ok (((rows.map (fun r => r.uuid)).map
           (fun u => resolveOne E cache u)).map f)) := by
    simp only [mapPar, hiter]
    simp only [hd]
    simp only [hgmu]
    simp only [hrp]
    simp [List.map_map, Function.comp]
  refine ⟨⟨some rows', cache'⟩,
    (rows.map (fun r => r.uuid)).map (fun u => resolveOne E cache u),
    hrun, ?_, ?_⟩
  · have h1 : mapRun E f 1 ⟨some rows, cache⟩ = mapSeq E f ⟨some rows, cache⟩ := by
      simp [mapRun]
    rw [h1, hseq]
  · have h4 : mapRun E f 4 ⟨some rows, cache⟩ = mapPar E f ⟨some rows, cache⟩ := by
      simp [mapRun]
    rw [h4, hpar]

/-- Claim C3, witness: the map-determinism theorem evaluated on a
two-member catalog with one truthy cache hit and one resolver hit, with the
identity function. -/
theorem mapRun_concurrency_order_determinism_witness :
    ∃ st1 memberlist,
      listRun ⟨fun u => if u = "b" then some ⟨"b", "Sim", "/b", "B"⟩ else none,
          fun s => s, 36, 10, 100⟩
        ⟨some [⟨"a", "Sim", "/a"⟩, ⟨"b", "Sim", "/b"⟩],
         [("a", some ⟨"a", "Sim", "/a", "A"⟩)]⟩
        = (st1, Except.ok memberlist) ∧
      mapRun ⟨fun u => if u = "b" then some ⟨"b", "Sim", "/b", "B"⟩ else none,
          fun s => s, 36, 10, 100⟩ (fun m : Option Container => m) 1
        ⟨some [⟨"a", "Sim", "/a"⟩, ⟨"b", "Sim", "/b"⟩],
         [("a", some ⟨"a", "Sim", "/a", "A"⟩)]⟩
        = (st1, Except.ok (memberlist.map (fun m => m))) ∧
      mapRun ⟨fun u => if u = "b" then some ⟨"b", "Sim", "/b", "B"⟩ else none,
          fun s => s, 36, 10, 100⟩ (fun m : Option Container => m) 4
        ⟨some [⟨"a", "Sim", "/a"⟩, ⟨"b", "Sim", "/b"⟩],
         [("a", some ⟨"a", "Sim", "/a", "A"⟩)]⟩
        = (st1, Except.ok (memberlist.map (fun m => m))) :=
  mapRun_concurrency_order_determinism
    ⟨fun u => if u = "b" then some ⟨"b", "Sim", "/b", "B"⟩ else none,
      fun s => s, 36, 10, 100⟩
    ⟨some [⟨"a", "Sim", "/a"⟩, ⟨"b", "Sim", "/b"⟩],
     [("a", some ⟨"a", "Sim", "/a", "A"⟩)]⟩
    [⟨"a", "Sim", "/a"⟩, ⟨"b", "Sim", "/b"⟩]
    (fun m : Option Container => m) rfl (by decide) (by decide) (by decide)
